import Mathlib

/-!
Shallow embedding of `tools/package_extension.py` (ChromeOSGraylogAgent).

Strings are modelled as `List Char` (`Str`).  The Python `str.strip` is
`pyStrip` (ASCII whitespace), `str.lower` is `pyLower` (ASCII letters),
`str.startswith` / `str.endswith` are `strStartsWith` / `strEndsWith`, and
`sorted(set(...))` is insertion sort over `List.dedup` with the
code-point lexicographic order `strLe`.
-/

abbrev Str := List Char

/-- Characters that Python `str.strip()` removes (ASCII whitespace). -/
def isPySpace (c : Char) : Bool :=
  c == ' ' || c == '\t' || c == '\n' || c == '\x0d' || c == '\x0b' || c == '\x0c'

/-- Python `s.strip()`: drop leading and trailing whitespace. -/
def pyStrip (s : Str) : Str :=
  ((s.dropWhile isPySpace).reverse.dropWhile isPySpace).reverse

/-- Python `s.lower()` (ASCII case folding, as used on scheme checks). -/
def pyLower (s : Str) : Str := s.map Char.toLower

/-- Python `s.startswith(p)` on our char-list strings. -/
def strStartsWith : Str → Str → Bool
  | _, [] => true
  | [], _ :: _ => false
  | c :: cs, p :: ps => p == c && strStartsWith cs ps

/-- Python `s.endswith(p)` on our char-list strings. -/
def strEndsWith (s p : Str) : Bool :=
  strStartsWith s.reverse p.reverse

def HTTP_SCHEME : Str := "http://".data

def HTTPS_SCHEME : Str := "https://".data

/-- Source constant `HOST_PATTERN_TEMPLATE = "scheme://host/*"` instantiated. -/
def HOST_PATTERN_TEMPLATE (scheme host : Str) : Str :=
  scheme ++ "://".data ++ host ++ "/*".data

/-- Source function `ensure_trailing_wildcard`. -/
def ensure_trailing_wildcard (pattern : Str) : Str :=
  if strEndsWith pattern ("/*".data) then pattern
  else if strEndsWith pattern ("/".data) then pattern ++ "*".data
  else pattern ++ "/*".data

/-- Scheme test of the loop body: `lower.startswith("http://") or
lower.startswith("https://")` applied to the lowered candidate. -/
def hasScheme (candidate : Str) : Bool :=
  strStartsWith (pyLower candidate) HTTP_SCHEME ||
    strStartsWith (pyLower candidate) HTTPS_SCHEME

/-- What one iteration of the `for raw in hosts` loop adds to the set. -/
def emitOne (raw : Str) (allow_http : Bool) : List Str :=
  if raw = [] then []
  else if pyStrip raw = [] then []
  else if hasScheme (pyStrip raw) then [ensure_trailing_wildcard (pyStrip raw)]
  else if allow_http then
    [HOST_PATTERN_TEMPLATE ("https".data) (pyStrip raw),
     HOST_PATTERN_TEMPLATE ("http".data) (pyStrip raw)]
  else [HOST_PATTERN_TEMPLATE ("https".data) (pyStrip raw)]

/-- All strings added to the `patterns` set over the whole loop. -/
def emitAll : List Str → Bool → List Str
  | [], _ => []
  | r :: rs, f => emitOne r f ++ emitAll rs f

/-- Boolean code-point lexicographic order, the Python `<=` on strings. -/
def strLeb : Str → Str → Bool
  | [], _ => true
  | _ :: _, [] => false
  | a :: as, b :: bs => if a < b then true else if a = b then strLeb as bs else false

def strLe (a b : Str) : Prop := strLeb a b = true

instance : DecidableRel strLe := fun a b =>
  inferInstanceAs (Decidable (strLeb a b = true))

/-- Source function `normalize_host_patterns`: build the set of emitted
patterns, then `sorted(...)`. -/
def normalize_host_patterns (hosts : List Str) (allow_http : Bool) : List Str :=
  List.insertionSort strLe (emitAll hosts allow_http).dedup

/-- Shape shared by every pattern the normalizer can emit: it ends in
the wildcard and carries an http or https scheme (case-insensitively). -/
def Canon (p : Str) : Prop :=
  strEndsWith p ("/*".data) = true ∧ hasScheme p = true

/-- Manifest document: the two fields the tool touches plus the untouched
remainder of the JSON object. -/
structure Manifest where
  version : Option Str
  host_permissions : Option (List Str)
  rest : List (Str × Str)
deriving DecidableEq

/-- Parsed command-line arguments of the tool. -/
structure Args where
  output : Str
  hosts : List Str
  allow_http : Bool
  versionOverride : Option Str
  dry_run : Bool
deriving DecidableEq

/-- A produced zip archive: the mutated manifest plus the copied files. -/
structure Archive where
  manifest : Manifest
  files : List (Str × Str)
deriving DecidableEq

/-- The filesystem state the tool observes and mutates. -/
structure World where
  extensionDirExists : Bool
  sourceManifest : Manifest
  sourceFiles : List (Str × Str)
  dest : Option Archive
deriving DecidableEq

/-- Observable outcome of one invocation of `main`. -/
structure RunTrace where
  exitCode : Nat
  tmpDirCreated : Bool
  manifestRead : Bool
  manifestWritten : Bool
  preview : Option (Option Str × List Str)
  world : World
deriving DecidableEq

/-- Lines 138-139 of the source: `if args.version: manifest["version"] = args.version`.
Python truthiness makes an empty override string a no-op. -/
def applyVersionEdit (m : Manifest) (v : Option Str) : Manifest :=
  match v with
  | none => m
  | some s => if s = [] then m else { m with version := some s }

/-- Lines 141-142 of the source: `if host_patterns: manifest["host_permissions"] = host_patterns`. -/
def applyHostEdit (m : Manifest) (patterns : List Str) : Manifest :=
  if patterns = [] then m else { m with host_permissions := some patterns }

/-- Source function `main`: `validate_environment`, normalize, copy to a
scratch directory, edit the manifest, then either preview (dry run) or
write the manifest and build the archive at the destination. -/
def mainRun (w : World) (a : Args) : RunTrace :=
  if w.extensionDirExists = false then
    { exitCode := 1, tmpDirCreated := false, manifestRead := false,
      manifestWritten := false, preview := none, world := w }
  else
    let host_patterns := normalize_host_patterns a.hosts a.allow_http
    let manifest := applyHostEdit (applyVersionEdit w.sourceManifest a.versionOverride) host_patterns
    if a.dry_run then
      { exitCode := 0, tmpDirCreated := true, manifestRead := true,
        manifestWritten := false,
        preview := some (manifest.version, manifest.host_permissions.getD []),
        world := w }
    else
      { exitCode := 0, tmpDirCreated := true, manifestRead := true,
        manifestWritten := true, preview := none,
        world := { w with dest := some { manifest := manifest, files := w.sourceFiles } } }

/-- Helper: the boolean lexicographic order is total. -/
theorem strLeb_total : ∀ a b : Str, strLeb a b = true ∨ strLeb b a = true
  | [], _ => Or.inl rfl
  | _ :: _, [] => Or.inr rfl
  | a :: as, b :: bs => by
    rcases lt_trichotomy a b with h | h | h
    · left; simp [strLeb, h]
    · subst h
      rcases strLeb_total as bs with ih | ih
      · left; simp [strLeb, ih]
      · right; simp [strLeb, ih]
    · right; simp [strLeb, h]

/-- Helper: unfolding of the boolean lexicographic order on cons cells. -/
theorem strLeb_cons_iff {a b : Char} {as bs : Str} :
    strLeb (a :: as) (b :: bs) = true ↔ a < b ∨ (a = b ∧ strLeb as bs = true) := by
  by_cases h1 : a < b
  · simp [strLeb, h1]
  · by_cases h2 : a = b
    · simp [strLeb, h1, h2]
    · simp [strLeb, h1, h2]

/-- Helper: the boolean lexicographic order is transitive. -/
theorem strLeb_trans : ∀ a b c : Str,
    strLeb a b = true → strLeb b c = true → strLeb a c = true
  | [], _, _, _, _ => rfl
  | _ :: _, [], _, h, _ => by cases h
  | _ :: _, _ :: _, [], _, h => by cases h
  | a :: as, b :: bs, c :: cs, h1, h2 => by
    rw [strLeb_cons_iff] at h1 h2 ⊢
    rcases h1 with h1 | ⟨h1, h1r⟩ <;> rcases h2 with h2 | ⟨h2, h2r⟩
    · exact Or.inl (lt_trans h1 h2)
    · exact Or.inl (h2 ▸ h1)
    · exact Or.inl (h1 ▸ h2)
    · exact Or.inr ⟨h1.trans h2, strLeb_trans as bs cs h1r h2r⟩

instance : IsTotal Str strLe := ⟨strLeb_total⟩

instance : IsTrans Str strLe := ⟨strLeb_trans⟩

/-- Helper: the empty pattern is a prefix of anything. -/
theorem strStartsWith_nil : ∀ s : Str, strStartsWith s [] = true := fun s => by
  cases s <;> rfl

/-- Helper: a prefix of a string is a prefix of any right extension of it. -/
theorem strStartsWith_append : ∀ (s p t : Str),
    strStartsWith s p = true → strStartsWith (s ++ t) p = true
  | s, [], t, _ => strStartsWith_nil (s ++ t)
  | [], _ :: _, _, h => by cases h
  | c :: cs, q :: qs, t, h => by
    simp only [strStartsWith, Bool.and_eq_true] at h
    simp only [List.cons_append, strStartsWith, Bool.and_eq_true]
    exact ⟨h.1, strStartsWith_append cs qs t h.2⟩

/-- Helper: every string is a prefix of itself extended on the right. -/
theorem strStartsWith_self_append : ∀ (p t : Str), strStartsWith (p ++ t) p = true
  | [], t => strStartsWith_nil t
  | c :: cs, t => by
    simp only [List.cons_append, strStartsWith, Bool.and_eq_true, beq_self_eq_true]
    exact ⟨trivial, strStartsWith_self_append cs t⟩

/-- Helper: every string ends with any of its own suffixes. -/
theorem strEndsWith_append (s t : Str) : strEndsWith (s ++ t) t = true := by
  unfold strEndsWith
  rw [List.reverse_append]
  exact strStartsWith_self_append t.reverse s.reverse

/-- Helper: a true `strStartsWith` exposes the prefix concretely. -/
theorem strStartsWith_exists : ∀ {x q : Str},
    strStartsWith x q = true → ∃ t, x = q ++ t
  | x, [], _ => ⟨x, rfl⟩
  | [], _ :: _, h => by cases h
  | c :: cs, q :: qs, h => by
    simp only [strStartsWith, Bool.and_eq_true, beq_iff_eq] at h
    obtain ⟨t, ht⟩ := strStartsWith_exists h.2
    exact ⟨t, by simp [List.cons_append, h.1, ht]⟩

/-- Helper: a true `strEndsWith` exposes the suffix concretely. -/
theorem strEndsWith_exists {s p : Str} (h : strEndsWith s p = true) : ∃ d, s = d ++ p := by
  obtain ⟨t, ht⟩ := strStartsWith_exists h
  refine ⟨t.reverse, ?_⟩
  rw [← List.reverse_reverse s, ht]
  simp

/-- Helper: lowering distributes over append. -/
theorem pyLower_append (a b : Str) : pyLower (a ++ b) = pyLower a ++ pyLower b :=
  List.map_append _ a b

/-- Helper: right extension preserves the scheme check. -/
theorem hasScheme_append {c : Str} (t : Str) (h : hasScheme c = true) :
    hasScheme (c ++ t) = true := by
  simp only [hasScheme, pyLower_append, Bool.or_eq_true] at h ⊢
  exact h.imp (strStartsWith_append _ _ _) (strStartsWith_append _ _ _)

/-- Helper: the https host template produces a canonical pattern. -/
theorem canon_template_https (c : Str) : Canon (HOST_PATTERN_TEMPLATE ("https".data) c) := by
  have he : HOST_PATTERN_TEMPLATE ("https".data) c = ("https://".data ++ c) ++ "/*".data := by
    show ("https://".data) ++ (c ++ "/*".data) = _
    rw [List.append_assoc]
  constructor
  · rw [he]
    exact strEndsWith_append _ _
  · rw [he, List.append_assoc]
    show hasScheme (HTTPS_SCHEME ++ (c ++ "/*".data)) = true
    simp only [hasScheme, pyLower_append, Bool.or_eq_true]
    right
    have hl : pyLower HTTPS_SCHEME = HTTPS_SCHEME := by decide
    rw [hl]
    exact strStartsWith_self_append _ _

/-- Helper: the http host template produces a canonical pattern. -/
theorem canon_template_http (c : Str) : Canon (HOST_PATTERN_TEMPLATE ("http".data) c) := by
  have he : HOST_PATTERN_TEMPLATE ("http".data) c = ("http://".data ++ c) ++ "/*".data := by
    show ("http://".data) ++ (c ++ "/*".data) = _
    rw [List.append_assoc]
  constructor
  · rw [he]
    exact strEndsWith_append _ _
  · rw [he, List.append_assoc]
    show hasScheme (HTTP_SCHEME ++ (c ++ "/*".data)) = true
    simp only [hasScheme, pyLower_append, Bool.or_eq_true]
    left
    have hl : pyLower HTTP_SCHEME = HTTP_SCHEME := by decide
    rw [hl]
    exact strStartsWith_self_append _ _

/-- Helper: `ensure_trailing_wildcard` keeps a pattern that already ends
with the wildcard. -/
theorem ensure_of_wildcard {p : Str} (h : strEndsWith p ("/*".data) = true) :
    ensure_trailing_wildcard p = p := by
  simp [ensure_trailing_wildcard, h]

/-- Helper: on a scheme-carrying candidate, `ensure_trailing_wildcard`
yields a canonical pattern. -/
theorem canon_ensure {c : Str} (h : hasScheme c = true) :
    Canon (ensure_trailing_wildcard c) := by
  by_cases h1 : strEndsWith c ("/*".data) = true
  · rw [ensure_of_wildcard h1]
    exact ⟨h1, h⟩
  · by_cases h2 : strEndsWith c ("/".data) = true
    · have he : ensure_trailing_wildcard c = c ++ "*".data := by
        simp [ensure_trailing_wildcard, h1, h2]
      obtain ⟨d, hd⟩ := strEndsWith_exists h2
      constructor
      · rw [he, hd, List.append_assoc]
        exact strEndsWith_append d _
      · rw [he]
        exact hasScheme_append _ h
    · have he : ensure_trailing_wildcard c = c ++ "/*".data := by
        simp [ensure_trailing_wildcard, h1, h2]
      constructor
      · rw [he]
        exact strEndsWith_append c _
      · rw [he]
        exact hasScheme_append _ h

/-- Helper: everything `emitOne` emits is canonical. -/
theorem canon_emitOne {q r : Str} {f : Bool} (h : q ∈ emitOne r f) : Canon q := by
  unfold emitOne at h
  split_ifs at h with g1 g2 g3 g4
  · cases h
  · cases h
  · rw [List.mem_singleton] at h
    subst h
    exact canon_ensure g3
  · simp only [List.mem_cons, List.mem_singleton, List.not_mem_nil, or_false] at h
    rcases h with h | h
    · exact h ▸ canon_template_https _
    · exact h ▸ canon_template_http _
  · rw [List.mem_singleton] at h
    subst h
    exact canon_template_https _

/-- Helper: everything in the emitted pool is canonical. -/
theorem canon_emitAll {q : Str} : ∀ {hs : List Str} {f : Bool},
    q ∈ emitAll hs f → Canon q
  | [], _, h => by cases h
  | r :: rs, f, h => by
    rcases List.mem_append.mp h with h | h
    · exact canon_emitOne h
    · exact canon_emitAll h

/-- Helper: contribution of one list entry to the emitted pool. -/
theorem mem_emitAll_of_mem {q r : Str} {f : Bool} :
    ∀ {hs : List Str}, r ∈ hs → q ∈ emitOne r f → q ∈ emitAll hs f
  | [], hr, _ => by cases hr
  | r0 :: rs, hr, hq => by
    rcases List.mem_cons.mp hr with h | h
    · exact List.mem_append.mpr (Or.inl (h ▸ hq))
    · exact List.mem_append.mpr (Or.inr (mem_emitAll_of_mem h hq))

/-- Helper: membership in the normalizer output is membership in the
emitted pool. -/
theorem mem_normalize {q : Str} {hs : List Str} {f : Bool} :
    q ∈ normalize_host_patterns hs f ↔ q ∈ emitAll hs f := by
  unfold normalize_host_patterns
  rw [List.mem_insertionSort, List.mem_dedup]

/-- Helper: the normalizer output is sorted. -/
theorem normalize_sorted (hs : List Str) (f : Bool) :
    List.Sorted strLe (normalize_host_patterns hs f) :=
  List.sorted_insertionSort strLe _

/-- Helper: the normalizer output has no duplicates. -/
theorem normalize_nodup (hs : List Str) (f : Bool) :
    (normalize_host_patterns hs f).Nodup :=
  ((List.perm_insertionSort strLe _).nodup_iff).mpr (List.nodup_dedup _)

/-- Helper: a scheme-carrying string starts with a letter that lowers to h. -/
theorem scheme_head {p : Str} (h : hasScheme p = true) :
    ∃ c cs, p = c :: cs ∧ Char.toLower c = 'h' := by
  simp only [hasScheme, Bool.or_eq_true] at h
  match p with
  | [] =>
    exfalso
    rcases h with h | h <;> exact absurd h (by decide)
  | c :: cs =>
    refine ⟨c, cs, rfl, ?_⟩
    rcases h with h | h
    · obtain ⟨t, ht⟩ := strStartsWith_exists h
      have ht2 : Char.toLower c :: pyLower cs = 'h' :: ("ttp://".data ++ t) := ht
      injection ht2
    · obtain ⟨t, ht⟩ := strStartsWith_exists h
      have ht2 : Char.toLower c :: pyLower cs = 'h' :: ("ttps://".data ++ t) := ht
      injection ht2

/-- Helper: a character lowering to h is not whitespace. -/
theorem isPySpace_false_of_lower_h {c : Char} (h : Char.toLower c = 'h') :
    isPySpace c = false := by
  cases hc : isPySpace c
  · rfl
  · exfalso
    simp only [isPySpace, Bool.or_eq_true, beq_iff_eq] at hc
    rcases hc with ((((h1 | h1) | h1) | h1) | h1) | h1 <;> subst h1 <;> exact absurd h (by decide)

/-- Helper: a scheme-carrying string is non-empty. -/
theorem hasScheme_ne_nil {p : Str} (h : hasScheme p = true) : p ≠ [] := by
  obtain ⟨c, cs, hpc, _⟩ := scheme_head h
  simp [hpc]

/-- Helper: stripping a canonical pattern changes nothing: it starts with a
scheme letter and ends with the wildcard, neither of which is whitespace. -/
theorem pyStrip_canon {p : Str} (hp : Canon p) : pyStrip p = p := by
  obtain ⟨hend, hsch⟩ := hp
  obtain ⟨c, cs, hpc, hcl⟩ := scheme_head hsch
  have hc : isPySpace c = false := isPySpace_false_of_lower_h hcl
  have h1 : p.dropWhile isPySpace = p := by
    rw [hpc]
    simp [List.dropWhile_cons, hc]
  obtain ⟨d, hd⟩ := strEndsWith_exists hend
  have hstar : isPySpace ('*') = false := by decide
  have h2 : p.reverse.dropWhile isPySpace = p.reverse := by
    rw [hd, List.reverse_append]
    have h3 : ("/*".data).reverse = '*' :: '/' :: [] := rfl
    rw [h3]
    simp [List.dropWhile_cons, hstar]
  unfold pyStrip
  rw [h1, h2, List.reverse_reverse]

/-- Helper: one loop iteration on a canonical pattern re-emits exactly it. -/
theorem emitOne_canon {p : Str} (hp : Canon p) (f : Bool) : emitOne p f = [p] := by
  have hne : p ≠ [] := hasScheme_ne_nil hp.2
  have hstrip : pyStrip p = p := pyStrip_canon hp
  simp only [emitOne, hstrip, hp.2, if_neg hne, if_true, ensure_of_wildcard hp.1]

/-- Helper: the loop is the identity on lists of canonical patterns. -/
theorem emitAll_id {f : Bool} : ∀ {l : List Str}, (∀ p ∈ l, Canon p) → emitAll l f = l
  | [], _ => rfl
  | r :: rs, h => by
    have h1 : emitOne r f = [r] := emitOne_canon (h r (List.mem_cons_self r rs)) f
    have h2 : emitAll rs f = rs := emitAll_id fun p hp => h p (List.mem_cons_of_mem _ hp)
    simp [emitAll, h1, h2]

/-- Helper: every output entry of the normalizer is canonical. -/
theorem normalize_canon {q : Str} {hs : List Str} {f : Bool}
    (h : q ∈ normalize_host_patterns hs f) : Canon q :=
  canon_emitAll (mem_normalize.mp h)

/-- Helper: normalizing is idempotent. -/
theorem normalize_host_patterns_idem (hs : List Str) (f : Bool) :
    normalize_host_patterns (normalize_host_patterns hs f) f =
      normalize_host_patterns hs f := by
  show List.insertionSort strLe ((emitAll (normalize_host_patterns hs f) f).dedup) = _
  rw [emitAll_id fun p hp => normalize_canon hp,
    List.dedup_eq_self.mpr (normalize_nodup hs f),
    (normalize_sorted hs f).insertionSort_eq]

/-- Helper: with the insecure flag off, a list of bare hosts only ever
emits https templates. -/
theorem emitAll_bare_https {q : Str} : ∀ {hs : List Str},
    (∀ r ∈ hs, hasScheme (pyStrip r) = false) → q ∈ emitAll hs false →
    ∃ c, q = HOST_PATTERN_TEMPLATE ("https".data) c
  | [], _, h => by cases h
  | r :: rs, hall, h => by
    rcases List.mem_append.mp h with h | h
    · have hb : hasScheme (pyStrip r) = false := hall r (List.mem_cons_self r rs)
      by_cases h1 : r = []
      · simp [emitOne, h1] at h
      · by_cases h2 : pyStrip r = []
        · simp [emitOne, h1, h2] at h
        · refine ⟨pyStrip r, ?_⟩
          simp [emitOne, h1, h2, hb] at h
          exact h
    · exact emitAll_bare_https (fun r2 hr2 => hall r2 (List.mem_cons_of_mem _ hr2)) h

/-- Helper: https and http templates are never equal (they differ at the
fifth character). -/
theorem template_https_ne_http (c d : Str) :
    HOST_PATTERN_TEMPLATE ("https".data) c ≠ HOST_PATTERN_TEMPLATE ("http".data) d := by
  intro h
  have h2 : 'h' :: 't' :: 't' :: 'p' :: 's' :: (':' :: '/' :: '/' :: (c ++ "/*".data)) =
      'h' :: 't' :: 't' :: 'p' :: (':' :: '/' :: '/' :: (d ++ "/*".data)) := h
  injection h2 with _ h2
  injection h2 with _ h2
  injection h2 with _ h2
  injection h2 with _ h2
  injection h2 with h5 _
  exact absurd h5 (by decide)

/-- Helper: any pattern emitted with the flag off is also emitted with it on. -/
theorem emitOne_mono {q r : Str} (h : q ∈ emitOne r false) : q ∈ emitOne r true := by
  by_cases h1 : r = []
  · simp [emitOne, h1] at h
  · by_cases h2 : pyStrip r = []
    · simp [emitOne, h1, h2] at h
    · by_cases h3 : hasScheme (pyStrip r) = true
      · simpa [emitOne, h1, h2, h3] using h
      · simp [emitOne, h1, h2, h3] at h ⊢
        exact Or.inl h

/-- Helper: the version edit never touches host permissions. -/
theorem applyVersionEdit_host (m : Manifest) (v : Option Str) :
    (applyVersionEdit m v).host_permissions = m.host_permissions := by
  cases v with
  | none => rfl
  | some s => by_cases hs : s = [] <;> simp [applyVersionEdit, hs]

/-- Helper: the host edit never touches the version field. -/
theorem applyHostEdit_version (m : Manifest) (l : List Str) :
    (applyHostEdit m l).version = m.version := by
  by_cases hl : l = [] <;> simp [applyHostEdit, hl]

/-- Helper: the effective version after both edits, in terms of inputs. -/
theorem effective_version (m : Manifest) (v : Option Str) (l : List Str) :
    (applyHostEdit (applyVersionEdit m v) l).version =
      (match v with
        | some s => if s = [] then m.version else some s
        | none => m.version) := by
  rw [applyHostEdit_version]
  cases v with
  | none => rfl
  | some s => by_cases hs : s = [] <;> simp [applyVersionEdit, hs]

/-- Helper: the effective host-permission list after both edits. -/
theorem effective_hosts (m : Manifest) (v : Option Str) (l : List Str) :
    (applyHostEdit (applyVersionEdit m v) l).host_permissions.getD [] =
      (if l = [] then m.host_permissions.getD [] else l) := by
  by_cases hl : l = [] <;> simp [applyHostEdit, hl, applyVersionEdit_host]

/-- C1: for every list of raw host strings and every value of the
allow-insecure flag, the list `normalize_host_patterns` returns contains
no duplicate patterns and is sorted ascending in the code-point
lexicographic order. -/
theorem C1_sorted_nodup (hs : List Str) (f : Bool) :
    (normalize_host_patterns hs f).Nodup ∧
      List.Sorted strLe (normalize_host_patterns hs f) :=
  ⟨normalize_nodup hs f, normalize_sorted hs f⟩

/-- C2 counterexample: the entry h is a bare host (trimmed, non-empty, no
scheme), the flag is off, yet the output of the list containing it and the
raw entry http://h does contain http://h/*, refuting the non-containment
clause of the claim. -/
theorem C2_counterexample :
    (pyStrip ("h".data) = "h".data ∧ "h".data ≠ ([] : Str) ∧
        hasScheme ("h".data) = false ∧ "h".data ∈ ["h".data, "http://h".data]) ∧
      "http://h/*".data ∈ normalize_host_patterns ["h".data, "http://h".data] false := by
  decide

/-- C2 (amended): for a raw entry whose trimmed value is a non-empty bare
host, the output always contains its https pattern; with the flag on it
also contains its http pattern; and with the flag off the http pattern is
absent provided no entry of the list carries a scheme. -/
theorem C2_bare_host (hs : List Str) (f : Bool) (r : Str) (hr : r ∈ hs)
    (hne : pyStrip r ≠ []) (hbare : hasScheme (pyStrip r) = false) :
    HOST_PATTERN_TEMPLATE ("https".data) (pyStrip r) ∈ normalize_host_patterns hs f ∧
      (f = true →
        HOST_PATTERN_TEMPLATE ("http".data) (pyStrip r) ∈ normalize_host_patterns hs f) ∧
      (f = false → (∀ r2 ∈ hs, hasScheme (pyStrip r2) = false) →
        HOST_PATTERN_TEMPLATE ("http".data) (pyStrip r) ∉ normalize_host_patterns hs f) := by
  have hrne : r ≠ [] := fun h => hne (by rw [h]; rfl)
  refine ⟨?_, fun hf => ?_, fun hf hall hmem => ?_⟩
  · refine mem_normalize.mpr (mem_emitAll_of_mem hr ?_)
    cases f <;> simp [emitOne, hrne, hne, hbare]
  · subst hf
    refine mem_normalize.mpr (mem_emitAll_of_mem hr ?_)
    simp [emitOne, hrne, hne, hbare]
  · subst hf
    obtain ⟨c, hc⟩ := emitAll_bare_https hall (mem_normalize.mp hmem)
    exact template_https_ne_http c (pyStrip r) hc.symm

/-- C2 witness: the amended theorem applied to the single bare host h with
the flag off. -/
theorem C2_witness :
    HOST_PATTERN_TEMPLATE ("https".data) (pyStrip ("h".data)) ∈
        normalize_host_patterns ["h".data] false ∧
      HOST_PATTERN_TEMPLATE ("http".data) (pyStrip ("h".data)) ∉
        normalize_host_patterns ["h".data] false := by
  have h := C2_bare_host ["h".data] false ("h".data) (by decide) (by decide) (by decide)
  exact ⟨h.1, h.2.2 rfl (by decide)⟩

/-- C3: a raw entry whose trimmed value starts (case-insensitively) with
an http or https scheme is added unchanged when it already ends with the
wildcard, with star appended when it ends with slash, and with slash-star
appended otherwise. -/
theorem C3_full_pattern (hs : List Str) (f : Bool) (r : Str) (hr : r ∈ hs)
    (hsch : hasScheme (pyStrip r) = true) :
    (strEndsWith (pyStrip r) ("/*".data) = true →
        pyStrip r ∈ normalize_host_patterns hs f) ∧
      (strEndsWith (pyStrip r) ("/*".data) = false →
        strEndsWith (pyStrip r) ("/".data) = true →
        pyStrip r ++ "*".data ∈ normalize_host_patterns hs f) ∧
      (strEndsWith (pyStrip r) ("/*".data) = false →
        strEndsWith (pyStrip r) ("/".data) = false →
        pyStrip r ++ "/*".data ∈ normalize_host_patterns hs f) := by
  have hne : pyStrip r ≠ [] := hasScheme_ne_nil hsch
  have hrne : r ≠ [] := fun h => hne (by rw [h]; rfl)
  have hemit : emitOne r f = [ensure_trailing_wildcard (pyStrip r)] := by
    simp [emitOne, hrne, hne, hsch]
  refine ⟨fun h1 => ?_, fun h1 h2 => ?_, fun h1 h2 => ?_⟩
  · have he : ensure_trailing_wildcard (pyStrip r) = pyStrip r := ensure_of_wildcard h1
    refine mem_normalize.mpr (mem_emitAll_of_mem hr ?_)
    rw [hemit, he]
    exact List.mem_singleton_self _
  · have he : ensure_trailing_wildcard (pyStrip r) = pyStrip r ++ "*".data := by
      simp [ensure_trailing_wildcard, h1, h2]
    refine mem_normalize.mpr (mem_emitAll_of_mem hr ?_)
    rw [hemit, he]
    exact List.mem_singleton_self _
  · have he : ensure_trailing_wildcard (pyStrip r) = pyStrip r ++ "/*".data := by
      simp [ensure_trailing_wildcard, h1, h2]
    refine mem_normalize.mpr (mem_emitAll_of_mem hr ?_)
    rw [hemit, he]
    exact List.mem_singleton_self _

/-- C3 witness: the theorem applied to the entry https://x/ (slash-ending
case), whose normalized form https://x/* appears in the output. -/
theorem C3_witness :
    hasScheme (pyStrip ("https://x/".data)) = true ∧
      pyStrip ("https://x/".data) ++ "*".data ∈
        normalize_host_patterns ["https://x/".data] false :=
  ⟨by decide,
    (C3_full_pattern ["https://x/".data] false ("https://x/".data) (by decide)
        (by decide)).2.1 (by decide) (by decide)⟩

/-- C4: the normalizer is idempotent, and a full pattern already ending in
the wildcard is returned unchanged. -/
theorem C4_idempotent (hs : List Str) (f : Bool) :
    normalize_host_patterns (normalize_host_patterns hs f) f =
        normalize_host_patterns hs f ∧
      ∀ p : Str, hasScheme p = true → strEndsWith p ("/*".data) = true →
        normalize_host_patterns [p] f = [p] := by
  refine ⟨normalize_host_patterns_idem hs f, fun p h1 h2 => ?_⟩
  have h3 : emitAll [p] f = [p] := by
    show emitOne p f ++ [] = [p]
    rw [List.append_nil, emitOne_canon ⟨h2, h1⟩ f]
  show List.insertionSort strLe ((emitAll [p] f).dedup) = [p]
  rw [h3, List.dedup_eq_self.mpr (List.nodup_singleton p)]
  rfl

/-- C4 witness: the already-canonical pattern https://x/* is returned
unchanged by the normalizer. -/
theorem C4_witness :
    hasScheme ("https://x/*".data) = true ∧
      normalize_host_patterns ["https://x/*".data] false = ["https://x/*".data] :=
  ⟨by decide,
    (C4_idempotent ["https://x/*".data] false).2 ("https://x/*".data) (by decide) (by decide)⟩

/-- C5: every string in the output of `normalize_host_patterns` ends with
the slash-star wildcard. -/
theorem C5_all_end_wildcard (hs : List Str) (f : Bool) (p : Str)
    (h : p ∈ normalize_host_patterns hs f) : strEndsWith p ("/*".data) = true :=
  (normalize_canon h).1

/-- C5 witness: the theorem applied to the concrete output entry
https://foo.com/* of normalizing foo.com. -/
theorem C5_witness :
    "https://foo.com/*".data ∈ normalize_host_patterns ["foo.com".data] true ∧
      strEndsWith ("https://foo.com/*".data) ("/*".data) = true :=
  ⟨by decide, C5_all_end_wildcard ["foo.com".data] true _ (by decide)⟩

/-- C6: with the extension directory present and not in dry-run mode, an
empty normalized pattern list leaves host_permissions in the produced
archive exactly as loaded, and only a non-empty list overwrites it. -/
theorem C6_host_permissions_frame (w : World) (a : Args)
    (hdir : w.extensionDirExists = true) (hdry : a.dry_run = false) :
    (normalize_host_patterns a.hosts a.allow_http = [] →
        (mainRun w a).world.dest.map (fun ar => ar.manifest.host_permissions) =
          some w.sourceManifest.host_permissions) ∧
      (normalize_host_patterns a.hosts a.allow_http ≠ [] →
        (mainRun w a).world.dest.map (fun ar => ar.manifest.host_permissions) =
          some (some (normalize_host_patterns a.hosts a.allow_http))) := by
  constructor <;> intro hp <;>
    simp [mainRun, hdir, hdry, applyHostEdit, hp, applyVersionEdit_host]

/-- C6 witness: packaging with no host flags leaves the pre-existing
host_permissions value in the archive. -/
theorem C6_witness :
    normalize_host_patterns ([] : List Str) false = [] ∧
      (mainRun ⟨true, ⟨some ("1".data), some ["x".data], []⟩, [], none⟩
          ⟨[], [], false, none, false⟩).world.dest.map
          (fun ar => ar.manifest.host_permissions) = some (some ["x".data]) :=
  ⟨rfl, (C6_host_permissions_frame _ _ rfl rfl).1 rfl⟩

/-- C7 counterexample: a version override string was supplied (the empty
string), yet the packager keeps the loaded version 1.0 instead of
overwriting the field with that string. -/
theorem C7_counterexample :
    (mainRun ⟨true, ⟨some ("1.0".data), none, []⟩, [], none⟩
        ⟨[], [], false, some [], false⟩).world.dest.map
        (fun ar => ar.manifest.version) = some (some ("1.0".data)) ∧
      (mainRun ⟨true, ⟨some ("1.0".data), none, []⟩, [], none⟩
          ⟨[], [], false, some [], false⟩).world.dest.map
          (fun ar => ar.manifest.version) ≠ some (some ([] : Str)) := by
  decide

/-- C7 (amended): a non-empty version override overwrites the manifest
version field with exactly that string; no override, or an empty one,
keeps the loaded value. -/
theorem C7_version_override (w : World) (a : Args)
    (hdir : w.extensionDirExists = true) (hdry : a.dry_run = false) :
    (∀ s : Str, a.versionOverride = some s → s ≠ [] →
        (mainRun w a).world.dest.map (fun ar => ar.manifest.version) =
          some (some s)) ∧
      ((a.versionOverride = none ∨ a.versionOverride = some []) →
        (mainRun w a).world.dest.map (fun ar => ar.manifest.version) =
          some w.sourceManifest.version) := by
  constructor
  · intro s hs hsne
    simp [mainRun, hdir, hdry, applyHostEdit_version, applyVersionEdit, hs, hsne]
  · intro hv
    rcases hv with hv | hv <;>
      simp [mainRun, hdir, hdry, applyHostEdit_version, applyVersionEdit, hv]

/-- C7 witness: the amended theorem applied to the non-empty override 2.0. -/
theorem C7_witness :
    (mainRun ⟨true, ⟨some ("1.0".data), none, []⟩, [], none⟩
        ⟨[], [], false, some ("2.0".data), false⟩).world.dest.map
        (fun ar => ar.manifest.version) = some (some ("2.0".data)) :=
  (C7_version_override _ _ rfl rfl).1 ("2.0".data) rfl (by decide)

/-- C8: when the extension source directory does not exist the run exits
non-zero, creates no scratch directory, reads and writes no manifest, and
leaves the filesystem state untouched. -/
theorem C8_missing_dir (w : World) (a : Args)
    (hdir : w.extensionDirExists = false) :
    (mainRun w a).exitCode ≠ 0 ∧ (mainRun w a).tmpDirCreated = false ∧
      (mainRun w a).manifestRead = false ∧ (mainRun w a).manifestWritten = false ∧
      (mainRun w a).world = w := by
  simp [mainRun, hdir]

/-- C8 witness: the theorem applied to a world without the extension
directory. -/
theorem C8_witness :
    (mainRun ⟨false, ⟨none, none, []⟩, [], none⟩
        ⟨[], [], false, none, false⟩).exitCode ≠ 0 ∧
      (mainRun ⟨false, ⟨none, none, []⟩, [], none⟩
          ⟨[], [], false, none, false⟩).tmpDirCreated = false ∧
      (mainRun ⟨false, ⟨none, none, []⟩, [], none⟩
          ⟨[], [], false, none, false⟩).manifestRead = false ∧
      (mainRun ⟨false, ⟨none, none, []⟩, [], none⟩
          ⟨[], [], false, none, false⟩).manifestWritten = false ∧
      (mainRun ⟨false, ⟨none, none, []⟩, [], none⟩
          ⟨[], [], false, none, false⟩).world =
        ⟨false, ⟨none, none, []⟩, [], none⟩ :=
  C8_missing_dir _ _ rfl

/-- C9: in dry-run mode with the extension directory present the run exits
zero, leaves source and destination untouched, writes no manifest, and
prints the effective version and host-permission list. -/
theorem C9_dry_run (w : World) (a : Args)
    (hdir : w.extensionDirExists = true) (hdry : a.dry_run = true) :
    (mainRun w a).exitCode = 0 ∧ (mainRun w a).world = w ∧
      (mainRun w a).manifestWritten = false ∧
      (mainRun w a).preview =
        some
          ((match a.versionOverride with
            | some s => if s = [] then w.sourceManifest.version else some s
            | none => w.sourceManifest.version),
           (if normalize_host_patterns a.hosts a.allow_http = []
            then w.sourceManifest.host_permissions.getD []
            else normalize_host_patterns a.hosts a.allow_http)) := by
  refine ⟨by simp [mainRun, hdir, hdry], by simp [mainRun, hdir, hdry],
    by simp [mainRun, hdir, hdry], ?_⟩
  have h1 : (mainRun w a).preview =
      some
        ((applyHostEdit (applyVersionEdit w.sourceManifest a.versionOverride)
            (normalize_host_patterns a.hosts a.allow_http)).version,
          (applyHostEdit (applyVersionEdit w.sourceManifest a.versionOverride)
              (normalize_host_patterns a.hosts a.allow_http)).host_permissions.getD []) := by
    simp [mainRun, hdir, hdry]
  rw [h1, effective_version, effective_hosts]

/-- C9 witness: a dry run over a concrete manifest prints the loaded
version and the normalized host list while changing nothing. -/
theorem C9_witness :
    (mainRun ⟨true, ⟨some ("1.0".data), some ["x".data], []⟩, [], none⟩
        ⟨[], ["foo.com".data], false, none, true⟩).exitCode = 0 ∧
      (mainRun ⟨true, ⟨some ("1.0".data), some ["x".data], []⟩, [], none⟩
          ⟨[], ["foo.com".data], false, none, true⟩).world =
        ⟨true, ⟨some ("1.0".data), some ["x".data], []⟩, [], none⟩ ∧
      (mainRun ⟨true, ⟨some ("1.0".data), some ["x".data], []⟩, [], none⟩
          ⟨[], ["foo.com".data], false, none, true⟩).manifestWritten = false ∧
      (mainRun ⟨true, ⟨some ("1.0".data), some ["x".data], []⟩, [], none⟩
          ⟨[], ["foo.com".data], false, none, true⟩).preview =
        some (some ("1.0".data), ["https://foo.com/*".data]) := by
  have h := C9_dry_run (⟨true, ⟨some ("1.0".data), some ["x".data], []⟩, [], none⟩)
    (⟨[], ["foo.com".data], false, none, true⟩) rfl rfl
  refine ⟨h.1, h.2.1, h.2.2.1, ?_⟩
  rw [h.2.2.2]
  decide

/-- C10: the normalizer is monotone in the allow-insecure flag: every
pattern produced with the flag off is also produced with it on. -/
theorem C10_flag_monotone (hs : List Str) (p : Str)
    (h : p ∈ normalize_host_patterns hs false) :
    p ∈ normalize_host_patterns hs true := by
  rw [mem_normalize] at h ⊢
  induction hs with
  | nil => cases h
  | cons r rs ih =>
    rcases List.mem_append.mp h with h | h
    · exact List.mem_append.mpr (Or.inl (emitOne_mono h))
    · exact List.mem_append.mpr (Or.inr (ih h))

/-- C10 witness: the https pattern of foo.com produced with the flag off
is also in the flag-on output. -/
theorem C10_witness :
    "https://foo.com/*".data ∈ normalize_host_patterns ["foo.com".data] false ∧
      "https://foo.com/*".data ∈ normalize_host_patterns ["foo.com".data] true :=
  ⟨by decide, C10_flag_monotone ["foo.com".data] _ (by decide)⟩

example :
    normalize_host_patterns ["example.com".data, "https://api.example.com/v1".data] false =
      ["https://api.example.com/v1/*".data, "https://example.com/*".data] := by decide

example :
    normalize_host_patterns ["foo.com".data] true =
      ["http://foo.com/*".data, "https://foo.com/*".data] := by decide

example :
    normalize_host_patterns ["  h.com ".data, "".data, "HTTP://x/".data] false =
      ["HTTP://x/*".data, "https://h.com/*".data] := by decide
